import Mathlib

/-!
Verification of the wellness-dashboard data pipeline
(`src/utils/data_loader.py`, `src/app.py`).

A pandas `DataFrame` is embedded as a list of column labels together with a
list of rows; pandas allows duplicate column labels, so labels are kept as a
plain list.  A cell is either a missing value (`NaN`/`NaT`/`None`), a string,
a rational number (embedding the numeric dtypes), a datetime instant
(an integer number of minutes, order-isomorphic to real timestamps), or a
python `date` object (an integer day number).
-/

namespace Wellness

inductive Cell where
  | null : Cell
  | str : String → Cell
  | num : Rat → Cell
  | dt : Int → Cell
  | date : Int → Cell
deriving DecidableEq, Repr

structure Df where
  cols : List String
  rows : List (List Cell)
deriving DecidableEq, Repr

/-- Splitting a list of characters on a separator, embedding `str.split(sep)`
as used by the string parsers. -/
def splitOnChar (sep : Char) : List Char → List (List Char)
  | [] => [[]]
  | c :: rest =>
    let r := splitOnChar sep rest
    if c = sep then [] :: r
    else
      match r with
      | [] => [[c]]
      | h :: t => (c :: h) :: t

/-- Value of a nonempty all-digit character list, `none` otherwise. -/
def digitsVal (cs : List Char) : Option Nat :=
  if cs.isEmpty then none
  else if cs.all (fun c => c.isDigit) then
    some (cs.foldl (fun n c => 10 * n + (c.toNat - 48)) 0)
  else none

/-- Embedding of the datetime parser behind `pd.to_datetime` on strings:
an ISO `YYYY-MM-DD` string parses to a minute count that is order-isomorphic
to the calendar order; anything else fails to parse. -/
def parseDateStr (s : String) : Option Int :=
  match splitOnChar '-' s.data with
  | [ys, ms, ds] =>
    match digitsVal ys, digitsVal ms, digitsVal ds with
    | some y, some m, some d =>
      if 1 ≤ m ∧ m ≤ 12 ∧ 1 ≤ d ∧ d ≤ 31 then
        some ((1440 : Int) * ((y * 12 + (m - 1)) * 31 + (d - 1)))
      else none
    | _, _, _ => none
  | _ => none

/-- Embedding of the numeric parser behind `pd.to_numeric` on strings:
an optionally signed decimal literal parses to a rational, anything else
fails to parse. -/
def parseRatStr (s : String) : Option Rat :=
  let core : List Char → Option Rat := fun cs =>
    match splitOnChar '.' cs with
    | [as] => (digitsVal as).map (fun n => (n : Rat))
    | [as, bs] =>
      match digitsVal as, digitsVal bs with
      | some n, some f => some ((n : Rat) + (f : Rat) / ((10 : Rat) ^ bs.length))
      | _, _ => none
    | _ => none
  match s.data with
  | '-' :: rest => (core rest).map (fun q => -q)
  | cs => core cs

/-- Cellwise `pd.to_datetime(-, errors="coerce")`: datetimes pass through,
`date` objects become midnight datetimes, strings are parsed (failures
coerce to missing), numbers are taken as epoch offsets, missing stays
missing. -/
def toDatetimeCell : Cell → Cell
  | .null => .null
  | .dt t => .dt t
  | .date d => .dt (1440 * d)
  | .str s =>
    match parseDateStr s with
    | some t => .dt t
    | none => .null
  | .num q => .dt q.floor

/-- Cellwise `Series.dt.date`: truncate a datetime to its calendar day. -/
def dtDateCell : Cell → Cell
  | .dt t => .date (t.fdiv 1440)
  | _ => .null

/-- Cellwise `pd.to_numeric(-, errors="coerce")`. -/
def toNumericCell : Cell → Cell
  | .null => .null
  | .num q => .num q
  | .str s =>
    match parseRatStr s with
    | some q => .num q
    | none => .null
  | .dt t => .num (t : Rat)
  | .date _ => .null

/-- The literal column synonym table of `normalize_dataframe`
(`src/utils/data_loader.py`), as the function `pandas.DataFrame.rename`
applies: labels outside the mapping are left unchanged. -/
def column_mapping (s : String) : String :=
  match s with
  | "Timestamp" => "Timestamp"
  | "timestamp" => "Timestamp"
  | "Date" => "Timestamp"
  | "Athlete" => "Athlete"
  | "Name" => "Athlete"
  | "SleepText" => "SleepText"
  | "Sleep Text" => "SleepText"
  | "Sleep Duration" => "SleepText"
  | "How did you sleep?" => "Sleep"
  | "Sleep Quality" => "Sleep"
  | "How is your mood?" => "Mood"
  | "Mood" => "Mood"
  | "What is your overall energy level?" => "Energy"
  | "Energy Level" => "Energy"
  | "Energy" => "Energy"
  | "What is your overall stress level?" => "Stress"
  | "Stress Level" => "Stress"
  | "Stress" => "Stress"
  | "What is your general soreness?" => "Soreness"
  | "Soreness" => "Soreness"
  | "What is your overall fatigue?" => "Fatigue"
  | "Fatigue" => "Fatigue"
  | other => other

/-- The keys of the synonym table. -/
def mappingKeys : List String :=
  ["Timestamp", "timestamp", "Date", "Athlete", "Name", "SleepText",
   "Sleep Text", "Sleep Duration", "How did you sleep?", "Sleep Quality",
   "How is your mood?", "Mood", "What is your overall energy level?",
   "Energy Level", "Energy", "What is your overall stress level?",
   "Stress Level", "Stress", "What is your general soreness?", "Soreness",
   "What is your overall fatigue?", "Fatigue"]

/-- The canonical column labels the pipeline produces: the targets of the
synonym table together with the derived `Date` column. -/
def canonicalColumns : List String :=
  ["Timestamp", "Date", "Athlete", "SleepText", "Sleep", "Mood", "Energy",
   "Stress", "Soreness", "Fatigue"]

def numeric_columns : List String :=
  ["Sleep", "Mood", "Energy", "Stress", "Soreness", "Fatigue"]

/-- Index of the first column carrying a label. -/
def idxOfLbl (cols : List String) (lbl : String) : Nat :=
  cols.findIdx (fun c => c = lbl)

/-- Replace the cell of row `r` in column position `i` by `f` of it. -/
def setAtCol (i : Nat) (f : Cell → Cell) (r : List Cell) : List Cell :=
  r.set i (f (r.getD i .null))

/-- Embedding of `df[lbl] = vals`: replace the column when the label exists,
append a new column otherwise. -/
def setCol (cols : List String) (rows : List (List Cell)) (lbl : String)
    (vals : List Cell) : List String × List (List Cell) :=
  if lbl ∈ cols then
    (cols, (rows.zip vals).map (fun p =>
      p.1.mapIdx (fun j c => if cols.getD j "" = lbl then p.2 else c)))
  else
    (cols ++ [lbl], (rows.zip vals).map (fun p => p.1 ++ [p.2]))

/-- Rank used to order cells of different kinds; the missing value ranks
last, matching the `na_position="last"` default of `sort_values`. -/
def cellRank : Cell → Nat
  | .num _ => 0
  | .dt _ => 1
  | .date _ => 2
  | .str _ => 3
  | .null => 4

/-- Total comparison on cells: same-kind cells compare by value, the missing
value sorts after everything else. -/
def cellLe (a b : Cell) : Bool :=
  match a, b with
  | .num x, .num y => x ≤ y
  | .dt x, .dt y => x ≤ y
  | .date x, .date y => x ≤ y
  | .str x, .str y => x ≤ y
  | _, _ => cellRank a ≤ cellRank b

/-- Lexicographic row comparison by the cells in positions `iD` then `iA`,
embedding `sort_values(["Date", "Athlete"])`. -/
def rowKeyLe (iD iA : Nat) (r s : List Cell) : Bool :=
  let rd := r.getD iD .null
  let sd := s.getD iD .null
  if rd = sd then cellLe (r.getD iA .null) (s.getD iA .null)
  else cellLe rd sd

/-- The `Timestamp` block of `normalize_dataframe`: parse the `Timestamp`
column, derive `Date` from it, and convert `Date` to datetimes.  Selecting a
duplicated label yields a `DataFrame`, on which `pd.to_datetime` raises, so
those cases are errors. -/
def tsStep (cols : List String) (rows : List (List Cell)) :
    Except String (List String × List (List Cell)) :=
  if "Timestamp" ∈ cols then
    if 1 < cols.count "Timestamp" then
      .error "to_datetime applied to duplicate Timestamp columns"
    else
      let i := idxOfLbl cols "Timestamp"
      let rows1 := rows.map (setAtCol i toDatetimeCell)
      let p := setCol cols rows1 "Date"
        (rows1.map (fun r => dtDateCell (r.getD i .null)))
      if 1 < p.1.count "Date" then
        .error "to_datetime applied to duplicate Date columns"
      else
        .ok (p.1, p.2.map (setAtCol (idxOfLbl p.1 "Date") toDatetimeCell))
  else .ok (cols, rows)

/-- One numeric conversion `df[c] = pd.to_numeric(df[c], errors="coerce")`;
a duplicated label raises inside `pd.to_numeric`. -/
def numStep (c : String) (p : List String × List (List Cell)) :
    Except String (List String × List (List Cell)) :=
  if c ∈ p.1 then
    if 1 < p.1.count c then
      .error "to_numeric applied to duplicate columns"
    else
      .ok (p.1, p.2.map (setAtCol (idxOfLbl p.1 c) toNumericCell))
  else .ok p

/-- The numeric-conversion loop of `normalize_dataframe`. -/
def numSteps : List String → List String × List (List Cell) →
    Except String (List String × List (List Cell))
  | [], p => .ok p
  | c :: rest, p =>
    match numStep c p with
    | .error e => .error e
    | .ok q => numSteps rest q

/-- The final `sort_values(["Date", "Athlete"])` of `normalize_dataframe`,
a stable lexicographic sort with missing keys placed last; duplicate labels
raise. -/
def sortStep (p : List String × List (List Cell)) :
    Except String (List String × List (List Cell)) :=
  if "Date" ∈ p.1 ∧ "Athlete" ∈ p.1 then
    if 1 < p.1.count "Date" ∨ 1 < p.1.count "Athlete" then
      .error "sort_values applied to duplicate labels"
    else
      .ok (p.1, p.2.mergeSort
        (rowKeyLe (idxOfLbl p.1 "Date") (idxOfLbl p.1 "Athlete")))
  else .ok p

/-- Embedding of `normalize_dataframe` (`src/utils/data_loader.py`):
rename columns through the synonym table, parse timestamps and derive the
date, coerce the metric columns to numbers, and sort by date and athlete. -/
def normalize_dataframe (df : Df) : Except String Df :=
  let cols := df.cols.map column_mapping
  match tsStep cols df.rows with
  | .error e => .error e
  | .ok p =>
    match numSteps numeric_columns p with
    | .error e => .error e
    | .ok q =>
      match sortStep q with
      | .error e => .error e
      | .ok r => .ok ⟨r.1, r.2⟩

/-- `get_athletes` (`src/utils/data_loader.py`):
`sorted(df["Athlete"].dropna().unique().tolist())` when the column exists,
`[]` otherwise.  A duplicated `Athlete` label makes the selection a
`DataFrame`, which has no `unique`, and `sorted` raises on mutually
unorderable values; both are errors. -/
def uniqueFirst : List Cell → List Cell
  | [] => []
  | c :: rest => c :: uniqueFirst (rest.filter (fun x => x ≠ c))
termination_by l => l.length
decreasing_by
  exact Nat.lt_succ_of_le (List.length_filter_le _ _)

def isNullCell : Cell → Bool
  | .null => true
  | _ => false

/-- A cell that is a string or missing, the shape of a well-typed subject
identifier column. -/
def strOrNull : Cell → Bool
  | .str _ => true
  | .null => true
  | _ => false

def sortableCells (l : List Cell) : Bool :=
  l.all (fun c => cellRank c = 0) || l.all (fun c => cellRank c = 1) ||
    l.all (fun c => cellRank c = 3)

def get_athletes (df : Df) : Except String (List Cell) :=
  if "Athlete" ∈ df.cols then
    if 1 < df.cols.count "Athlete" then
      .error "unique applied to a DataFrame of duplicate Athlete columns"
    else
      let i := idxOfLbl df.cols "Athlete"
      let vals := (df.rows.map (fun r => r.getD i .null)).filter
        (fun c => !isNullCell c)
      let uniq := uniqueFirst vals
      if sortableCells uniq then .ok (uniq.mergeSort cellLe)
      else .error "sorted applied to unorderable values"
  else .ok []

/-- `DataFrame.empty`: true when either axis has length zero. -/
def dfEmpty (df : Df) : Bool :=
  df.rows.isEmpty || df.cols.isEmpty

/-- The body of the `try` block of `load_google_sheet`: a remote fetch
either raises or returns a raw table, and a table with zero rows raises
`ValueError("No data found in sheet")` inside the same `try`. -/
def attemptResult (remote : Except String Df) : Except String Df :=
  match remote with
  | .error e => .error e
  | .ok df => if dfEmpty df then .error "No data found in sheet" else .ok df

/-- Embedding of `load_google_sheet` (`src/utils/data_loader.py`): the
remote attempt is modelled by its outcome `remote`, the fallback CSV by the
table `fallback`.  On any failure of the attempt the fallback is used when
`use_fallback` is set and the exception is re-raised otherwise; the chosen
table is then normalized. -/
def load_google_sheet (remote : Except String Df) (fallback : Df)
    (use_fallback : Bool) : Except String Df :=
  match attemptResult remote with
  | .ok df => normalize_dataframe df
  | .error e =>
    if use_fallback then normalize_dataframe fallback
    else .error e

/-! Closed forms used to state properties of `normalize_dataframe`.
They repeat the per-row effect of the steps above so that theorems can speak
about a single row. -/

/-- Column list after the `Timestamp` block: a `Date` column is appended
exactly when a `Timestamp` column is present (no synonym maps to `Date`, so
`Date` is never already present after renaming). -/
def tsColsOf (cols : List String) : List String :=
  if "Timestamp" ∈ cols then cols ++ ["Date"] else cols

/-- Output column list of `normalize_dataframe`. -/
def normCols (df : Df) : List String :=
  tsColsOf (df.cols.map column_mapping)

/-- Per-row effect of the `Timestamp` block. -/
def transformRowTs (cols : List String) (r : List Cell) : List Cell :=
  if "Timestamp" ∈ cols then
    let i := idxOfLbl cols "Timestamp"
    let r1 := setAtCol i toDatetimeCell r
    r1 ++ [toDatetimeCell (dtDateCell (r1.getD i .null))]
  else r

/-- Per-row effect of one numeric conversion. -/
def numRowStep (cols : List String) (c : String) (r : List Cell) :
    List Cell :=
  if c ∈ cols then setAtCol (idxOfLbl cols c) toNumericCell r else r

/-- Per-row effect of the whole of `normalize_dataframe` before sorting. -/
def transformRow (cols : List String) (r : List Cell) : List Cell :=
  numeric_columns.foldl (fun s c => numRowStep (tsColsOf cols) c s)
    (transformRowTs cols r)

/-- Output rows of `normalize_dataframe`. -/
def normRows (df : Df) : List (List Cell) :=
  let cols := df.cols.map column_mapping
  let cols2 := tsColsOf cols
  let rows2 := df.rows.map (transformRow cols)
  if "Date" ∈ cols2 ∧ "Athlete" ∈ cols2 then
    rows2.mergeSort
      (rowKeyLe (idxOfLbl cols2 "Date") (idxOfLbl cols2 "Athlete"))
  else rows2

/-- The coercion `normalize_dataframe` applies to a cell, as a function of
its (renamed) column label. -/
def coerceCell (lbl : String) (c : Cell) : Cell :=
  if lbl = "Timestamp" then toDatetimeCell c
  else if lbl ∈ numeric_columns then toNumericCell c
  else c

/-- After renaming, no special label is duplicated, so every column
selection in `normalize_dataframe` yields a `Series` and no step raises. -/
def goodCols (df : Df) : Prop :=
  ∀ c ∈ "Timestamp" :: "Athlete" :: numeric_columns,
    (df.cols.map column_mapping).count c ≤ 1

instance (df : Df) : Decidable (goodCols df) := by
  unfold goodCols; infer_instance

/-- Rows all match the header width, as in any table produced by pandas. -/
def wfRows (df : Df) : Prop :=
  ∀ r ∈ df.rows, r.length = df.cols.length

instance (df : Df) : Decidable (wfRows df) := by
  unfold wfRows; infer_instance

/-! The readiness score and the z-score live in `components/readiness.py`
and `components/zscores.py`, which are not part of this repository snapshot;
only their callers in `src/app.py` are.  They are therefore modelled from
the specification. -/

/-- Modelled from the spec: the per-row readiness score of
`components/readiness.add_readiness_column` (missing from the snapshot).
Sleep, mood and energy contribute directly; stress, soreness and fatigue are
inverted on the 1-10 scale before combination; the score is the plain
average of the metrics present on the row, and a row with no known metric
has an unknown score (never zero-filled). -/
def readinessScore (sleep mood energy stress soreness fatigue : Option Rat) :
    Option Rat :=
  let contribs : List (Option Rat) :=
    [sleep, mood, energy,
     stress.map (fun x => 11 - x),
     soreness.map (fun x => 11 - x),
     fatigue.map (fun x => 11 - x)]
  let known := contribs.filterMap id
  if known = [] then none
  else some (known.sum / (known.length : Rat))

/-- Modelled from the spec: the per-subject, per-metric z-score of
`components/zscores.add_all_zscores` (missing from the snapshot).
The value is `(value - mean) / stddev` over the subject's own historical
series; fewer than two points or a zero standard deviation yield unknown.
The square root inside the standard deviation is kept abstract as the
parameter `rt`, since the claims concern only the unknown guards. -/
def zscoreVal (rt : Rat → Rat) (history : List Rat) (value : Rat) :
    Option Rat :=
  if history.length < 2 then none
  else
    let m := history.sum / (history.length : Rat)
    let v := (history.map (fun x => (x - m) ^ 2)).sum /
      ((history.length : Rat) - 1)
    if v = 0 then none else some ((value - m) / rt v)

/-! Module-level code of `src/utils/data_loader.py` (lines 16-27): the
credentials are built before any function is defined, in both branches
through the name `Credentials`, which no import statement binds. -/

/-- The names bound in the module namespace of `utils.data_loader` when
line 19 executes: the eleven imported names and `scope`. -/
def dataLoaderModuleNames : List String :=
  ["json", "pd", "gspread", "ServiceAccountCredentials", "st", "Optional",
   "Dict", "Any", "os", "datetime", "timedelta", "scope"]

/-- Python name resolution: evaluating an unbound name raises `NameError`. -/
def lookupName (env : List String) (n : String) : Except String String :=
  if n ∈ env then .ok n
  else .error ("NameError: name " ++ n ++ " is not defined")

/-- Embedding of importing `utils.data_loader`: lines 19-23 run at module
load.  Whether or not `GSPREAD_CREDENTIALS` is in `st.secrets`, the chosen
branch evaluates `Credentials`; the later module statements (authorize,
sheet open, fetch) and every function definition are reachable only if this
succeeds. -/
def import_data_loader (secretsHaveGspreadCreds : Bool) :
    Except String String :=
  if secretsHaveGspreadCreds then
    match lookupName dataLoaderModuleNames "json" with
    | .error e => .error e
    | .ok _ => lookupName dataLoaderModuleNames "Credentials"
  else
    lookupName dataLoaderModuleNames "Credentials"

/-! Helper lemmas. -/

theorem column_mapping_ne_date (s : String) : column_mapping s ≠ "Date" := by
  unfold column_mapping
  split <;> simp_all

theorem date_not_mem_map (cols : List String) :
    "Date" ∉ cols.map column_mapping := by
  intro h
  rcases List.mem_map.mp h with ⟨s, _, hEq⟩
  exact column_mapping_ne_date s hEq

theorem getD_mem {α : Type} {l : List α} {j : Nat} (h : j < l.length)
    (d : α) : l.getD j d ∈ l := by
  induction l generalizing j with
  | nil => simp at h
  | cons a rest ih =>
    cases j with
    | zero => simp
    | succ k =>
      have hk : k < rest.length := by simpa using h
      simpa using Or.inr (ih hk)

theorem idxOfLbl_lt_length {cols : List String} {lbl : String}
    (h : lbl ∈ cols) : idxOfLbl cols lbl < cols.length :=
  List.findIdx_lt_length_of_exists ⟨lbl, h, by simp⟩

theorem getD_idxOfLbl {cols : List String} {lbl : String} (h : lbl ∈ cols) :
    cols.getD (idxOfLbl cols lbl) "" = lbl := by
  induction cols with
  | nil => cases h
  | cons a rest ih =>
    by_cases ha : a = lbl
    · simp [idxOfLbl, List.findIdx_cons, ha]
    · have hmem : lbl ∈ rest := by
        rcases List.mem_cons.mp h with h1 | h1
        · exact absurd h1.symm ha
        · exact h1
      have hpa : (fun c => decide (c = lbl)) a = false := by
        simp [ha]
      simp only [idxOfLbl, List.findIdx_cons, hpa, cond_false,
        List.getD_cons_succ]
      exact ih hmem

theorem idxOfLbl_eq_of_getD {cols : List String} {lbl : String} {j : Nat}
    (hc : cols.count lbl ≤ 1) (hj : j < cols.length)
    (h : cols.getD j "" = lbl) : idxOfLbl cols lbl = j := by
  induction cols generalizing j with
  | nil => simp at hj
  | cons a rest ih =>
    cases j with
    | zero =>
      simp only [List.getD_cons_zero] at h
      simp [idxOfLbl, List.findIdx_cons, h]
    | succ k =>
      simp only [List.getD_cons_succ] at h
      have hk : k < rest.length := by simpa using hj
      by_cases ha : a = lbl
      · exfalso
        have hmem : lbl ∈ rest := h ▸ getD_mem hk ""
        have h1 : 1 ≤ rest.count lbl := List.one_le_count_iff.mpr hmem
        have h2 : (a :: rest).count lbl = rest.count lbl + 1 := by
          simp [List.count_cons, ha]
        omega
      · have hpa : (fun c => decide (c = lbl)) a = false := by
          simp [ha]
        have hc2 : rest.count lbl ≤ 1 := by
          have : (a :: rest).count lbl = rest.count lbl := by
            simp [List.count_cons, ha]
          omega
        simp only [idxOfLbl, List.findIdx_cons, hpa, cond_false]
        have := ih hc2 hk h
        simp only [idxOfLbl] at this
        omega

theorem idxOfLbl_append_left {l1 l2 : List String} {lbl : String}
    (h : lbl ∈ l1) : idxOfLbl (l1 ++ l2) lbl = idxOfLbl l1 lbl := by
  have hlt := idxOfLbl_lt_length h
  simp only [idxOfLbl] at *
  rw [List.findIdx_append]
  simp [hlt]

theorem idxOfLbl_append_self {l1 : List String} {lbl : String}
    (h : lbl ∉ l1) : idxOfLbl (l1 ++ [lbl]) lbl = l1.length := by
  have hf : l1.findIdx (fun c => decide (c = lbl)) = l1.length := by
    apply List.findIdx_eq_length_of_false
    intro x hx
    simp only [decide_eq_false_iff_not]
    intro hEq
    exact h (hEq ▸ hx)
  simp only [idxOfLbl]
  rw [List.findIdx_append, hf]
  simp [List.findIdx_cons]

theorem getD_set_self {α : Type} {l : List α} {i : Nat} {v d : α}
    (h : i < l.length) : (l.set i v).getD i d = v := by
  simp [List.getD_eq_getElem?_getD, List.getElem?_set_self h]

theorem getD_set_ne {α : Type} {l : List α} {i j : Nat} {v d : α}
    (h : i ≠ j) : (l.set i v).getD j d = l.getD j d := by
  simp [List.getD_eq_getElem?_getD, List.getElem?_set_ne h]

theorem getD_append_left {α : Type} {l1 l2 : List α} {j : Nat} {d : α}
    (h : j < l1.length) : (l1 ++ l2).getD j d = l1.getD j d := by
  simp [List.getD_eq_getElem?_getD, List.getElem?_append_left h]

theorem getD_append_length {α : Type} {l1 : List α} {v d : α} :
    (l1 ++ [v]).getD l1.length d = v := by
  simp [List.getD_eq_getElem?_getD,
    List.getElem?_append_right (Nat.le_refl l1.length)]

theorem set_append_length {α : Type} {l1 : List α} {v x : α} :
    (l1 ++ [v]).set l1.length x = l1 ++ [x] := by
  rw [List.set_append_right _ _ (Nat.le_refl l1.length)]
  simp

theorem two_le_count_map {l : List String} {x y t : String}
    (hx : x ∈ l) (hy : y ∈ l) (hxy : x ≠ y)
    (hfx : column_mapping x = t) (hfy : column_mapping y = t) :
    2 ≤ (l.map column_mapping).count t := by
  induction l with
  | nil => cases hx
  | cons a rest ih =>
    have hcons : (l : List String) → (a : String) →
        ((a :: l).map column_mapping).count t =
          (l.map column_mapping).count t +
            if column_mapping a == t then 1 else 0 := by
      intro l a
      simp [List.count_cons]
    rcases List.mem_cons.mp hx with hxa | hxr
    · rcases List.mem_cons.mp hy with hya | hyr
      · exact absurd (hxa.trans hya.symm) hxy
      · have h1 : 1 ≤ (rest.map column_mapping).count t :=
          List.one_le_count_iff.mpr (List.mem_map.mpr ⟨y, hyr, hfy⟩)
        rw [hcons rest a, ← hxa, hfx]
        simp only [beq_self_eq_true, if_true]
        omega
    · rcases List.mem_cons.mp hy with hya | hyr
      · have h1 : 1 ≤ (rest.map column_mapping).count t :=
          List.one_le_count_iff.mpr (List.mem_map.mpr ⟨x, hxr, hfx⟩)
        rw [hcons rest a, ← hya, hfy]
        simp only [beq_self_eq_true, if_true]
        omega
      · have h2 := ih hxr hyr
        rw [hcons rest a]
        omega

theorem cellLe_refl (a : Cell) : cellLe a a = true := by
  cases a <;> simp [cellLe]

theorem cellLe_total (a b : Cell) : (cellLe a b || cellLe b a) = true := by
  cases a <;> cases b <;>
    simp [cellLe, cellRank, le_total, Int.le_total, Nat.le_total]

theorem cellLe_trans {a b c : Cell} (h1 : cellLe a b = true)
    (h2 : cellLe b c = true) : cellLe a c = true := by
  cases a <;> cases b <;> cases c <;>
    simp only [cellLe, cellRank, decide_eq_true_eq] at h1 h2 ⊢ <;>
    first
    | rfl
    | omega
    | exact le_trans h1 h2

theorem cellLe_antisymm {a b : Cell} (h1 : cellLe a b = true)
    (h2 : cellLe b a = true) : a = b := by
  cases a <;> cases b <;>
    simp only [cellLe, cellRank, decide_eq_true_eq, Cell.str.injEq,
      Cell.num.injEq, Cell.dt.injEq, Cell.date.injEq] at h1 h2 ⊢ <;>
    first
    | rfl
    | omega
    | exact le_antisymm h1 h2

theorem cellLe_null_left {d : Cell} (h : cellLe .null d = true) :
    d = .null := by
  cases d <;> simp_all [cellLe, cellRank]

theorem rowKeyLe_total (iD iA : Nat) (r s : List Cell) :
    (rowKeyLe iD iA r s || rowKeyLe iD iA s r) = true := by
  simp only [rowKeyLe]
  by_cases hd : r.getD iD Cell.null = s.getD iD Cell.null
  · rw [if_pos hd, if_pos hd.symm]
    exact cellLe_total _ _
  · rw [if_neg hd, if_neg (fun h => hd h.symm)]
    exact cellLe_total _ _

theorem rowKeyLe_trans {iD iA : Nat} {r s t : List Cell}
    (h1 : rowKeyLe iD iA r s = true) (h2 : rowKeyLe iD iA s t = true) :
    rowKeyLe iD iA r t = true := by
  simp only [rowKeyLe] at h1 h2 ⊢
  by_cases hrs : r.getD iD Cell.null = s.getD iD Cell.null
  · rw [if_pos hrs] at h1
    by_cases hst : s.getD iD Cell.null = t.getD iD Cell.null
    · rw [if_pos hst] at h2
      rw [if_pos (hrs.trans hst)]
      exact cellLe_trans h1 h2
    · rw [if_neg hst] at h2
      have hrt : ¬(r.getD iD Cell.null = t.getD iD Cell.null) := by
        rw [hrs]; exact hst
      rw [if_neg hrt, hrs]
      exact h2
  · rw [if_neg hrs] at h1
    by_cases hst : s.getD iD Cell.null = t.getD iD Cell.null
    · rw [if_pos hst] at h2
      have hrt : ¬(r.getD iD Cell.null = t.getD iD Cell.null) := by
        rw [← hst]; exact hrs
      rw [if_neg hrt, ← hst]
      exact h1
    · rw [if_neg hst] at h2
      by_cases hrt : r.getD iD Cell.null = t.getD iD Cell.null
      · exfalso
        have h3 : cellLe (s.getD iD Cell.null) (r.getD iD Cell.null) = true := by
          rw [hrt]; exact h2
        exact hrs (cellLe_antisymm h1 h3)
      · rw [if_neg hrt]
        exact cellLe_trans h1 h2

theorem zip_self_map {α β : Type} (l : List α) (g : α → β) :
    l.zip (l.map g) = l.map (fun a => (a, g a)) := by
  induction l with
  | nil => rfl
  | cons a t ih => simp [ih]

theorem numeric_labels_fact :
    ∀ c ∈ numeric_columns,
      c ≠ "Date" ∧ c ∈ "Timestamp" :: "Athlete" :: numeric_columns := by
  decide

theorem count_tsColsOf {cols : List String} {c : String} (hc : c ≠ "Date") :
    (tsColsOf cols).count c = cols.count c := by
  unfold tsColsOf
  split
  · have hdc : ¬("Date" = c) := fun h => hc h.symm
    simp [List.count_append, List.count_cons, hdc]
  · rfl

theorem tsStep_eq {cols : List String} {rows : List (List Cell)}
    (hD : "Date" ∉ cols) (hT : cols.count "Timestamp" ≤ 1)
    (hwf : ∀ r ∈ rows, r.length = cols.length) :
    tsStep cols rows = .ok (tsColsOf cols, rows.map (transformRowTs cols)) := by
  by_cases hmem : "Timestamp" ∈ cols
  · have hnum : ¬(1 < cols.count "Timestamp") := by omega
    have hcount : ¬(1 < (cols ++ ["Date"]).count "Date") := by
      have h0 : cols.count "Date" = 0 := List.count_eq_zero.mpr hD
      simp [List.count_append, h0, List.count_cons]
    have hidx : idxOfLbl (cols ++ ["Date"]) "Date" = cols.length :=
      idxOfLbl_append_self hD
    simp only [tsStep, if_pos hmem, if_neg hnum, setCol, if_neg hD,
      if_neg hcount, hidx, tsColsOf, if_pos hmem]
    apply congrArg
    apply congrArg
    rw [zip_self_map]
    rw [List.map_map, List.map_map, List.map_map]
    apply List.map_congr_left
    intro r hr
    have hlen : r.length = cols.length := hwf r hr
    simp only [Function.comp]
    set i := idxOfLbl cols "Timestamp" with hi
    set r1 := setAtCol i toDatetimeCell r with hr1
    have hr1len : r1.length = cols.length := by
      rw [hr1]; unfold setAtCol; rw [List.length_set]; exact hlen
    set v := dtDateCell (r1.getD i Cell.null) with hv
    have hgetD : (r1 ++ [v]).getD cols.length Cell.null = v := by
      rw [← hr1len]; exact getD_append_length
    have hset : (r1 ++ [v]).set cols.length (toDatetimeCell v) =
        r1 ++ [toDatetimeCell v] := by
      rw [← hr1len]; exact set_append_length
    unfold transformRowTs
    rw [if_pos hmem]
    simp only [setAtCol, hgetD, hset, ← hi, ← hr1, ← hv]
    rfl
  · simp only [tsStep, if_neg hmem, tsColsOf, if_neg hmem]
    apply congrArg
    apply congrArg
    have hid : ∀ r ∈ rows, id r = transformRowTs cols r := by
      intro r _
      unfold transformRowTs
      rw [if_neg hmem]
      rfl
    conv_lhs => rw [← List.map_id rows]
    exact List.map_congr_left hid

theorem numSteps_eq (L : List String) (cols : List String)
    (rows : List (List Cell)) (hc : ∀ c ∈ L, cols.count c ≤ 1) :
    numSteps L (cols, rows) =
      .ok (cols, rows.map
        (fun r => L.foldl (fun s c => numRowStep cols c s) r)) := by
  induction L generalizing rows with
  | nil =>
    simp [numSteps]
  | cons c rest ih =>
    by_cases hmem : c ∈ cols
    · have hnum : ¬(1 < cols.count c) := by
        have := hc c (List.mem_cons_self c rest)
        omega
      have hrest : ∀ d ∈ rest, cols.count d ≤ 1 := fun d hd =>
        hc d (List.mem_cons_of_mem c hd)
      simp only [numSteps, numStep, if_pos hmem, if_neg hnum]
      rw [ih _ hrest]
      apply congrArg
      apply congrArg
      rw [List.map_map]
      apply List.map_congr_left
      intro r _
      simp only [Function.comp, List.foldl_cons]
      rw [numRowStep, if_pos hmem]
    · have hrest : ∀ d ∈ rest, cols.count d ≤ 1 := fun d hd =>
        hc d (List.mem_cons_of_mem c hd)
      simp only [numSteps, numStep, if_neg hmem]
      rw [ih _ hrest]
      apply congrArg
      apply congrArg
      apply List.map_congr_left
      intro r _
      simp only [List.foldl_cons]
      rw [numRowStep, if_neg hmem]

theorem normalize_spec (df : Df) (h : goodCols df) (hwf : wfRows df) :
    normalize_dataframe df = .ok ⟨normCols df, normRows df⟩ := by
  have hD : "Date" ∉ df.cols.map column_mapping := date_not_mem_map df.cols
  have hT : (df.cols.map column_mapping).count "Timestamp" ≤ 1 :=
    h "Timestamp" (by simp)
  have hA : (df.cols.map column_mapping).count "Athlete" ≤ 1 :=
    h "Athlete" (by simp)
  have hwf2 : ∀ r ∈ df.rows, r.length = (df.cols.map column_mapping).length := by
    intro r hr
    rw [List.length_map]
    exact hwf r hr
  have hnumc : ∀ c ∈ numeric_columns,
      (tsColsOf (df.cols.map column_mapping)).count c ≤ 1 := by
    intro c hcmem
    rcases numeric_labels_fact c hcmem with ⟨hcd, hcin⟩
    rw [count_tsColsOf hcd]
    exact h c hcin
  have h1 := tsStep_eq hD hT hwf2
  have h2 := numSteps_eq numeric_columns
    (tsColsOf (df.cols.map column_mapping))
    (df.rows.map (transformRowTs (df.cols.map column_mapping))) hnumc
  simp only [normalize_dataframe, h1, h2]
  rw [List.map_map]
  have hrows : (df.rows.map
      ((fun r => numeric_columns.foldl
        (fun s c => numRowStep (tsColsOf (df.cols.map column_mapping)) c s) r) ∘
        transformRowTs (df.cols.map column_mapping))) =
      df.rows.map (transformRow (df.cols.map column_mapping)) := by
    apply List.map_congr_left
    intro r _
    rfl
  rw [hrows]
  by_cases hsort : "Date" ∈ tsColsOf (df.cols.map column_mapping) ∧
      "Athlete" ∈ tsColsOf (df.cols.map column_mapping)
  · have hts : "Timestamp" ∈ df.cols.map column_mapping := by
      by_contra hn
      have : tsColsOf (df.cols.map column_mapping) =
          df.cols.map column_mapping := by
        unfold tsColsOf; rw [if_neg hn]
      rw [this] at hsort
      exact hD hsort.1
    have hcd : (tsColsOf (df.cols.map column_mapping)).count "Date" = 1 := by
      unfold tsColsOf
      rw [if_pos hts]
      have h0 : (df.cols.map column_mapping).count "Date" = 0 :=
        List.count_eq_zero.mpr hD
      simp [List.count_append, h0, List.count_cons]
    have hca : (tsColsOf (df.cols.map column_mapping)).count "Athlete" ≤ 1 := by
      rw [count_tsColsOf (by decide)]
      exact hA
    have hdup : ¬(1 < (tsColsOf (df.cols.map column_mapping)).count "Date" ∨
        1 < (tsColsOf (df.cols.map column_mapping)).count "Athlete") := by
      omega
    simp only [sortStep, if_pos hsort, if_neg hdup, normCols, normRows,
      if_pos hsort]
  · simp only [sortStep, if_neg hsort, normCols, normRows, if_neg hsort]

theorem numRowStep_length (cols2 : List String) (c : String) (s : List Cell) :
    (numRowStep cols2 c s).length = s.length := by
  unfold numRowStep
  split
  · unfold setAtCol
    exact List.length_set s _ _
  · rfl

theorem foldNum_length (L : List String) (cols2 : List String)
    (s : List Cell) :
    (L.foldl (fun r c => numRowStep cols2 c r) s).length = s.length := by
  induction L generalizing s with
  | nil => rfl
  | cons c L2 ih =>
    rw [List.foldl_cons, ih, numRowStep_length]

theorem foldNum_getD (L : List String) (cols2 : List String) (hN : L.Nodup)
    (hc : ∀ c ∈ L, cols2.count c ≤ 1) (s : List Cell) (j : Nat)
    (hlen : s.length = cols2.length) (hj : j < s.length) :
    (L.foldl (fun r c => numRowStep cols2 c r) s).getD j .null =
      if cols2.getD j "" ∈ L then toNumericCell (s.getD j .null)
      else s.getD j .null := by
  induction L generalizing s with
  | nil => simp
  | cons c L2 ih =>
    have hjc : j < cols2.length := hlen ▸ hj
    have hN2 : L2.Nodup := (List.nodup_cons.mp hN).2
    have hcnot : c ∉ L2 := (List.nodup_cons.mp hN).1
    have hc2 : ∀ d ∈ L2, cols2.count d ≤ 1 := fun d hd =>
      hc d (List.mem_cons_of_mem c hd)
    have hs1len : (numRowStep cols2 c s).length = s.length :=
      numRowStep_length cols2 c s
    rw [List.foldl_cons]
    rw [ih hN2 hc2 (numRowStep cols2 c s) (hs1len.trans hlen)
      (hs1len ▸ hj)]
    by_cases hcj : cols2.getD j "" = c
    · have hmemc : c ∈ cols2 := hcj ▸ getD_mem hjc ""
      have hidx : idxOfLbl cols2 c = j :=
        idxOfLbl_eq_of_getD (hc c (List.mem_cons_self c L2)) hjc hcj
      have hs1 : (numRowStep cols2 c s).getD j Cell.null =
          toNumericCell (s.getD j Cell.null) := by
        unfold numRowStep
        rw [if_pos hmemc, hidx]
        unfold setAtCol
        exact getD_set_self hj
      have hnotin : ¬(cols2.getD j "" ∈ L2) := hcj ▸ hcnot
      rw [if_neg hnotin, hs1, if_pos (hcj ▸ List.mem_cons_self c L2)]
    · have hs1 : (numRowStep cols2 c s).getD j Cell.null =
          s.getD j Cell.null := by
        unfold numRowStep
        split
        · rename_i hmemc
          have hne : idxOfLbl cols2 c ≠ j := by
            intro hEq
            exact hcj (hEq ▸ getD_idxOfLbl hmemc)
          unfold setAtCol
          exact getD_set_ne hne
        · rfl
      rw [hs1]
      by_cases hin : cols2.getD j "" ∈ L2
      · rw [if_pos hin, if_pos (List.mem_cons_of_mem c hin)]
      · have : ¬(cols2.getD j "" ∈ c :: L2) := by
          intro hmem
          rcases List.mem_cons.mp hmem with h1 | h1
          · exact hcj h1
          · exact hin h1
        rw [if_neg hin, if_neg this]

theorem getD_tsColsOf {cols : List String} {j : Nat} (hj : j < cols.length) :
    (tsColsOf cols).getD j "" = cols.getD j "" := by
  unfold tsColsOf
  split
  · exact getD_append_left hj
  · rfl

theorem tsColsOf_length_of_mem {cols : List String}
    (h : "Timestamp" ∈ cols) :
    (tsColsOf cols).length = cols.length + 1 := by
  unfold tsColsOf
  rw [if_pos h]
  simp

theorem transformRow_getD (cols : List String)
    (hT : cols.count "Timestamp" ≤ 1)
    (hnum : ∀ c ∈ numeric_columns, (tsColsOf cols).count c ≤ 1)
    (r : List Cell) (hlen : r.length = cols.length) (j : Nat)
    (hj : j < cols.length) :
    (transformRow cols r).getD j Cell.null =
      coerceCell (cols.getD j "") (r.getD j Cell.null) := by
  have hNodup : numeric_columns.Nodup := by decide
  unfold transformRow
  by_cases hts : "Timestamp" ∈ cols
  · have hi : idxOfLbl cols "Timestamp" < cols.length := idxOfLbl_lt_length hts
    have hs0 : transformRowTs cols r =
        setAtCol (idxOfLbl cols "Timestamp") toDatetimeCell r ++
          [toDatetimeCell (dtDateCell
            ((setAtCol (idxOfLbl cols "Timestamp") toDatetimeCell r).getD
              (idxOfLbl cols "Timestamp") Cell.null))] := by
      unfold transformRowTs
      rw [if_pos hts]
    have hs0len : (transformRowTs cols r).length = cols.length + 1 := by
      rw [hs0]
      simp [setAtCol, hlen]
    have hlen2 : (transformRowTs cols r).length = (tsColsOf cols).length := by
      rw [hs0len, tsColsOf_length_of_mem hts]
    have hj2 : j < (transformRowTs cols r).length := by omega
    rw [foldNum_getD numeric_columns (tsColsOf cols) hNodup hnum _ j hlen2 hj2]
    have hr1len : (setAtCol (idxOfLbl cols "Timestamp") toDatetimeCell
        r).length = cols.length := by
      simp [setAtCol, hlen]
    have hs0getD : (transformRowTs cols r).getD j Cell.null =
        (setAtCol (idxOfLbl cols "Timestamp") toDatetimeCell r).getD j
          Cell.null := by
      rw [hs0]
      exact getD_append_left (hr1len ▸ hj)
    rw [getD_tsColsOf hj, hs0getD]
    by_cases hji : j = idxOfLbl cols "Timestamp"
    · have hlbl : cols.getD j "" = "Timestamp" := by
        rw [hji]; exact getD_idxOfLbl hts
      have hnotnum : ¬(cols.getD j "" ∈ numeric_columns) := by
        rw [hlbl]; decide
      have hval : (setAtCol (idxOfLbl cols "Timestamp") toDatetimeCell
          r).getD j Cell.null = toDatetimeCell (r.getD j Cell.null) := by
        unfold setAtCol
        rw [hji]
        exact getD_set_self (hji ▸ hlen ▸ hj)
      rw [if_neg hnotnum, hval]
      unfold coerceCell
      rw [if_pos hlbl]
    · have hlbl : cols.getD j "" ≠ "Timestamp" := by
        intro hEq
        exact hji (idxOfLbl_eq_of_getD hT hj hEq).symm
      have hval : (setAtCol (idxOfLbl cols "Timestamp") toDatetimeCell
          r).getD j Cell.null = r.getD j Cell.null := by
        unfold setAtCol
        exact getD_set_ne (fun h => hji h.symm)
      rw [hval]
      unfold coerceCell
      rw [if_neg hlbl]
  · have hs0 : transformRowTs cols r = r := by
      unfold transformRowTs
      rw [if_neg hts]
    have hcols2 : tsColsOf cols = cols := by
      unfold tsColsOf
      rw [if_neg hts]
    have hj2 : j < (transformRowTs cols r).length := by
      rw [hs0]; omega
    rw [foldNum_getD numeric_columns (tsColsOf cols) hNodup hnum _ j
      (by rw [hs0, hcols2]; exact hlen) hj2]
    rw [hs0, hcols2]
    have hlbl : cols.getD j "" ≠ "Timestamp" := by
      intro hEq
      exact hts (hEq ▸ getD_mem hj "")
    unfold coerceCell
    rw [if_neg hlbl]

theorem mappingKeys_canonical :
    ∀ s ∈ mappingKeys, column_mapping s ∈ canonicalColumns := by
  decide

/-! Claim theorems. -/

/-- C8: `normalize_dataframe` applied to an empty input table returns an
empty table and does not raise: the fully empty frame maps to itself, and
any zero-row frame whose renamed labels carry no duplicated special column
normalizes to a zero-row frame. -/
theorem C8_empty_table :
    normalize_dataframe ⟨[], []⟩ = .ok ⟨[], []⟩ ∧
    ∀ df : Df, goodCols df → df.rows = [] →
      ∃ out, normalize_dataframe df = .ok out ∧ out.rows = [] := by
  constructor
  · rfl
  · intro df h hrows
    refine ⟨⟨normCols df, normRows df⟩,
      normalize_spec df h (fun r hr => by rw [hrows] at hr; cases hr), ?_⟩
    show normRows df = []
    simp [normRows, hrows]

/-- C8 witness. -/
theorem C8_empty_table_witness :
    ∃ out, normalize_dataframe ⟨["Name"], []⟩ = .ok out ∧ out.rows = [] :=
  C8_empty_table.2 ⟨["Name"], []⟩ (by decide) rfl

/-- C9: importing `utils.data_loader` evaluates the name `Credentials` at
module load time in both branches of the secrets check, and no import binds
it, so the import raises `NameError` in every environment; the failure is
independent of any fallback setting and precedes every function of the
module. -/
theorem C9_import_raises (secrets : Bool) :
    import_data_loader secrets =
      .error "NameError: name Credentials is not defined" := by
  cases secrets <;> rfl

/-- C9 witness. -/
theorem C9_import_raises_witness :
    import_data_loader true =
      .error "NameError: name Credentials is not defined" :=
  C9_import_raises true

/-- C2: whenever the remote attempt fails or returns an empty frame, the
loader returns the normalized fallback table when `use_fallback` is set and
re-raises the attempt's exception otherwise, and a zero-row remote result
raises inside the attempt exactly like an unreachable source. -/
theorem C2_fallback (remote : Except String Df) (fb : Df) (e : String)
    (h : attemptResult remote = .error e) :
    load_google_sheet remote fb true = normalize_dataframe fb ∧
    load_google_sheet remote fb false = .error e ∧
    ∀ df : Df, dfEmpty df = true →
      attemptResult (.ok df) = .error "No data found in sheet" := by
  refine ⟨?_, ?_, ?_⟩
  · unfold load_google_sheet
    rw [h]
    rfl
  · unfold load_google_sheet
    rw [h]
    rfl
  · intro df hdf
    simp [attemptResult, hdf]

/-- C2 witness. -/
theorem C2_fallback_witness :
    load_google_sheet (.error "boom") ⟨[], []⟩ true =
      normalize_dataframe ⟨[], []⟩ ∧
    load_google_sheet (.error "boom") ⟨[], []⟩ false = .error "boom" ∧
    ∀ df : Df, dfEmpty df = true →
      attemptResult (.ok df) = .error "No data found in sheet" :=
  C2_fallback (.error "boom") ⟨[], []⟩ "boom" rfl

/-- C1 counterexample: an input whose labels are all drawn from the synonym
set on which `normalize_dataframe` raises instead of producing the canonical
schema — two distinct sleep synonyms rename to duplicate `Sleep` columns and
the numeric coercion fails. -/
theorem C1_counterexample :
    (∀ c ∈ (["How did you sleep?", "Sleep Quality"] : List String),
      c ∈ mappingKeys) ∧
    normalize_dataframe ⟨["How did you sleep?", "Sleep Quality"],
      [[.num 5, .num 6]]⟩ =
      .error "to_numeric applied to duplicate columns" :=
  ⟨by decide, rfl⟩

/-- C1 amended: when no two renamed labels collide, `normalize_dataframe`
returns a table whose columns are exactly the renamed input labels plus a
derived `Date` column when a `Timestamp` synonym is present; labels outside
the synonym mapping are retained unchanged rather than dropped, and when
every input label is a synonym every output column is canonical. -/
theorem C1_columns (df : Df) (h : goodCols df) (hwf : wfRows df) :
    ∃ out, normalize_dataframe df = .ok out ∧
      out.cols = df.cols.map column_mapping ++
        (if "Timestamp" ∈ df.cols.map column_mapping then ["Date"]
         else []) ∧
      ((∀ c ∈ df.cols, c ∈ mappingKeys) →
        ∀ c ∈ out.cols, c ∈ canonicalColumns) := by
  refine ⟨⟨normCols df, normRows df⟩, normalize_spec df h hwf, ?_, ?_⟩
  · show tsColsOf (df.cols.map column_mapping) = _
    unfold tsColsOf
    split <;> simp
  · intro hkeys c hc
    have hc2 : c ∈ tsColsOf (df.cols.map column_mapping) := hc
    unfold tsColsOf at hc2
    by_cases hts : "Timestamp" ∈ df.cols.map column_mapping
    · rw [if_pos hts] at hc2
      rcases List.mem_append.mp hc2 with h1 | h1
      · rcases List.mem_map.mp h1 with ⟨s, hs, hEq⟩
        exact hEq ▸ mappingKeys_canonical s (hkeys s hs)
      · have : c = "Date" := by simpa using h1
        rw [this]
        decide
    · rw [if_neg hts] at hc2
      rcases List.mem_map.mp hc2 with ⟨s, hs, hEq⟩
      exact hEq ▸ mappingKeys_canonical s (hkeys s hs)

/-- C1 witness. -/
theorem C1_columns_witness :
    ∃ out, normalize_dataframe ⟨["Name", "Energy Level"],
        [[.str "A", .str "7"]]⟩ = .ok out ∧
      out.cols = (["Name", "Energy Level"] : List String).map
          column_mapping ++
        (if "Timestamp" ∈ (["Name", "Energy Level"] : List String).map
            column_mapping then ["Date"] else []) ∧
      ((∀ c ∈ (["Name", "Energy Level"] : List String), c ∈ mappingKeys) →
        ∀ c ∈ out.cols, c ∈ canonicalColumns) :=
  C1_columns ⟨["Name", "Energy Level"], [[.str "A", .str "7"]]⟩
    (by decide) (by decide)

/-- C3 counterexample: `normalize_dataframe` is not idempotent — applied to
a table already carrying the canonical `Timestamp` and `Date` columns it
raises, because the synonym table renames `Date` to `Timestamp` and the
datetime coercion then sees duplicate columns. -/
theorem C3_counterexample :
    normalize_dataframe ⟨["Timestamp", "Date", "Athlete", "Sleep"],
      [[.dt 1440, .dt 1440, .str "A", .num 5]]⟩ =
      .error "to_datetime applied to duplicate Timestamp columns" := rfl

/-- C3 amended: re-applying `normalize_dataframe` to any table that already
contains both a `Timestamp` and a `Date` column — in particular to any
output it produced from a timestamped input — raises an error rather than
being a no-op. -/
theorem C3_not_idempotent (df : Df) (h1 : "Timestamp" ∈ df.cols)
    (h2 : "Date" ∈ df.cols) :
    ∃ e, normalize_dataframe df = .error e := by
  have hcount : 2 ≤ (df.cols.map column_mapping).count "Timestamp" :=
    two_le_count_map h1 h2 (by decide) rfl rfl
  have hmem : "Timestamp" ∈ df.cols.map column_mapping :=
    List.mem_map.mpr ⟨"Timestamp", h1, rfl⟩
  refine ⟨"to_datetime applied to duplicate Timestamp columns", ?_⟩
  simp only [normalize_dataframe, tsStep, if_pos hmem]
  rw [if_pos (show 1 < (df.cols.map column_mapping).count "Timestamp" by
    omega)]

/-- C3 witness. -/
theorem C3_not_idempotent_witness :
    ∃ e, normalize_dataframe ⟨["Timestamp", "Date"], []⟩ = .error e :=
  C3_not_idempotent ⟨["Timestamp", "Date"], []⟩ (by decide) (by decide)

theorem goodCols_numeric {df : Df} (h : goodCols df) :
    ∀ c ∈ numeric_columns,
      (tsColsOf (df.cols.map column_mapping)).count c ≤ 1 := by
  intro c hcmem
  rcases numeric_labels_fact c hcmem with ⟨hcd, hcin⟩
  rw [count_tsColsOf hcd]
  exact h c hcin

theorem pairwise_getD {α : Type} {R : α → α → Prop} {l : List α}
    (hp : l.Pairwise R) {i j : Nat} (d : α) (hij : i < j)
    (hj : j < l.length) : R (l.getD i d) (l.getD j d) := by
  have hi : i < l.length := lt_trans hij hj
  rw [List.getD_eq_getElem?_getD, List.getD_eq_getElem?_getD,
    List.getElem?_eq_getElem hi, List.getElem?_eq_getElem hj]
  simp only [Option.getD_some]
  exact (List.pairwise_iff_getElem.mp hp) i j hi hj hij

/-- C4: on a table with no duplicated special column, `normalize_dataframe`
never raises, keeps every row (the output rows are a permutation of the
per-row transforms), and transforms each row cell by cell: the cell in a
`Timestamp` or metric column is replaced by its own coercion — which is the
missing value exactly when parsing fails — and every other cell is left
untouched. -/
theorem C4_malformed_cells (df : Df) (h : goodCols df) (hwf : wfRows df) :
    ∃ out, normalize_dataframe df = .ok out ∧
      out.rows.Perm
        (df.rows.map (transformRow (df.cols.map column_mapping))) ∧
      (∀ r ∈ df.rows, ∀ j, j < df.cols.length →
        (transformRow (df.cols.map column_mapping) r).getD j Cell.null =
          coerceCell ((df.cols.map column_mapping).getD j "")
            (r.getD j Cell.null)) ∧
      (∀ s, parseDateStr s = none →
        toDatetimeCell (.str s) = .null) ∧
      (∀ s, parseRatStr s = none →
        toNumericCell (.str s) = .null) ∧
      (∀ lbl c, lbl ≠ "Timestamp" → lbl ∉ numeric_columns →
        coerceCell lbl c = c) := by
  refine ⟨⟨normCols df, normRows df⟩, normalize_spec df h hwf,
    ?_, ?_, ?_, ?_, ?_⟩
  · show (normRows df).Perm _
    simp only [normRows]
    split
    · exact List.mergeSort_perm _ _
    · exact List.Perm.refl _
  · intro r hr j hj
    have hT : (df.cols.map column_mapping).count "Timestamp" ≤ 1 :=
      h "Timestamp" (by simp)
    have hlen : r.length = (df.cols.map column_mapping).length := by
      rw [List.length_map]
      exact hwf r hr
    have hj2 : j < (df.cols.map column_mapping).length := by
      rw [List.length_map]
      exact hj
    exact transformRow_getD (df.cols.map column_mapping) hT
      (goodCols_numeric h) r hlen j hj2
  · intro s hs
    simp [toDatetimeCell, hs]
  · intro s hs
    simp [toNumericCell, hs]
  · intro lbl c h1 h2
    unfold coerceCell
    rw [if_neg h1, if_neg h2]

/-- C4 witness. -/
theorem C4_malformed_cells_witness :
    ∃ out, normalize_dataframe ⟨["Name", "Date", "How did you sleep?"],
        [[.str "A", .str "oops", .str "bad"]]⟩ = .ok out ∧
      out.rows.Perm
        (([[Cell.str "A", .str "oops", .str "bad"]] : List (List Cell)).map
          (transformRow ((["Name", "Date", "How did you sleep?"] :
            List String).map column_mapping))) ∧
      (∀ r ∈ ([[Cell.str "A", .str "oops", .str "bad"]] :
          List (List Cell)), ∀ j,
        j < (["Name", "Date", "How did you sleep?"] :
          List String).length →
        (transformRow ((["Name", "Date", "How did you sleep?"] :
          List String).map column_mapping) r).getD j Cell.null =
          coerceCell (((["Name", "Date", "How did you sleep?"] :
            List String).map column_mapping).getD j "")
            (r.getD j Cell.null)) ∧
      (∀ s, parseDateStr s = none →
        toDatetimeCell (.str s) = .null) ∧
      (∀ s, parseRatStr s = none →
        toNumericCell (.str s) = .null) ∧
      (∀ lbl c, lbl ≠ "Timestamp" → lbl ∉ numeric_columns →
        coerceCell lbl c = c) :=
  C4_malformed_cells ⟨["Name", "Date", "How did you sleep?"],
    [[.str "A", .str "oops", .str "bad"]]⟩ (by decide) (by decide)

/-- C5: on a table with both a timestamp and a subject column (and no
duplicated special column), the output of `normalize_dataframe` is sorted by
the lexicographic (`Date`, `Athlete`) key, and every row with an unknown
date is placed after all rows with known dates. -/
theorem C5_sorted_output (df : Df) (h : goodCols df) (hwf : wfRows df)
    (hts : "Timestamp" ∈ df.cols.map column_mapping)
    (hath : "Athlete" ∈ df.cols.map column_mapping) :
    ∃ out, normalize_dataframe df = .ok out ∧
      List.Pairwise (fun r s => rowKeyLe (idxOfLbl out.cols "Date")
        (idxOfLbl out.cols "Athlete") r s = true) out.rows ∧
      (∀ i j, i ≤ j → j < out.rows.length →
        (out.rows.getD i []).getD (idxOfLbl out.cols "Date") Cell.null =
          Cell.null →
        (out.rows.getD j []).getD (idxOfLbl out.cols "Date") Cell.null =
          Cell.null) := by
  have hD2 : "Date" ∈ tsColsOf (df.cols.map column_mapping) := by
    unfold tsColsOf
    rw [if_pos hts]
    simp
  have hA2 : "Athlete" ∈ tsColsOf (df.cols.map column_mapping) := by
    unfold tsColsOf
    rw [if_pos hts]
    exact List.mem_append_left _ hath
  have hcond : "Date" ∈ tsColsOf (df.cols.map column_mapping) ∧
      "Athlete" ∈ tsColsOf (df.cols.map column_mapping) := ⟨hD2, hA2⟩
  have hnr : normRows df =
      (df.rows.map (transformRow (df.cols.map column_mapping))).mergeSort
        (rowKeyLe (idxOfLbl (tsColsOf (df.cols.map column_mapping)) "Date")
          (idxOfLbl (tsColsOf (df.cols.map column_mapping)) "Athlete")) := by
    simp only [normRows]
    rw [if_pos hcond]
  have hpair : List.Pairwise (fun r s =>
      rowKeyLe (idxOfLbl (tsColsOf (df.cols.map column_mapping)) "Date")
        (idxOfLbl (tsColsOf (df.cols.map column_mapping)) "Athlete") r s =
        true) (normRows df) := by
    rw [hnr]
    exact @List.sorted_mergeSort (List Cell)
      (rowKeyLe (idxOfLbl (tsColsOf (df.cols.map column_mapping)) "Date")
        (idxOfLbl (tsColsOf (df.cols.map column_mapping)) "Athlete"))
      (fun a b c h1 h2 => rowKeyLe_trans h1 h2)
      (fun a b => rowKeyLe_total _ _ a b) _
  refine ⟨⟨normCols df, normRows df⟩, normalize_spec df h hwf, hpair, ?_⟩
  dsimp only
  intro i j hij hjlen hnull
  unfold normCols at hnull ⊢
  rcases Nat.eq_or_lt_of_le hij with hEq | hlt
  · rw [← hEq]
    exact hnull
  · have hrel := pairwise_getD hpair ([] : List Cell) hlt hjlen
    simp only [rowKeyLe] at hrel
    rw [hnull] at hrel
    by_contra hne
    rw [if_neg (fun hh => hne hh.symm)] at hrel
    exact hne (cellLe_null_left hrel)

/-- C5 witness. -/
theorem C5_sorted_output_witness :
    ∃ out, normalize_dataframe ⟨["Name", "Date"],
        [[.str "B", .str "2024-01-02"], [.str "A", .str "oops"]]⟩ =
      .ok out ∧
      List.Pairwise (fun r s => rowKeyLe (idxOfLbl out.cols "Date")
        (idxOfLbl out.cols "Athlete") r s = true) out.rows ∧
      (∀ i j, i ≤ j → j < out.rows.length →
        (out.rows.getD i []).getD (idxOfLbl out.cols "Date") Cell.null =
          Cell.null →
        (out.rows.getD j []).getD (idxOfLbl out.cols "Date") Cell.null =
          Cell.null) :=
  C5_sorted_output ⟨["Name", "Date"],
    [[.str "B", .str "2024-01-02"], [.str "A", .str "oops"]]⟩
    (by decide) (by decide) (by decide) (by decide)

theorem sum_div_length_bounds {l : List Rat} (hne : l ≠ [])
    (hb : ∀ x ∈ l, 1 ≤ x ∧ x ≤ 10) :
    1 ≤ l.sum / (l.length : Rat) ∧ l.sum / (l.length : Rat) ≤ 10 := by
  have hlen : 0 < l.length := List.length_pos.mpr hne
  have hlenQ : (0 : Rat) < (l.length : Rat) := by exact_mod_cast hlen
  have hlow : (l.length : Rat) * 1 ≤ l.sum := by
    have := List.card_nsmul_le_sum l 1 (fun x hx => (hb x hx).1)
    rwa [nsmul_eq_mul] at this
  have hhigh : l.sum ≤ (l.length : Rat) * 10 := by
    have := List.sum_le_card_nsmul l 10 (fun x hx => (hb x hx).2)
    rwa [nsmul_eq_mul] at this
  constructor
  · rw [le_div_iff₀ hlenQ]
    linarith
  · rw [div_le_iff₀ hlenQ]
    linarith

/-- C6: the readiness score is unknown exactly when all six contributing
metrics of the row are unknown; otherwise it is the mean of the known
oriented metrics only (missing fields never zero-fill), and on 1-10 inputs
it stays within 1-10. -/
theorem C6_readiness (s m e st so f : Option Rat)
    (hb : ∀ v : Rat, (s = some v ∨ m = some v ∨ e = some v ∨
      st = some v ∨ so = some v ∨ f = some v) → 1 ≤ v ∧ v ≤ 10) :
    (readinessScore s m e st so f = none ↔
      s = none ∧ m = none ∧ e = none ∧ st = none ∧ so = none ∧
        f = none) ∧
    ∀ r : Rat, readinessScore s m e st so f = some r →
      1 ≤ r ∧ r ≤ 10 := by
  constructor
  · cases s <;> cases m <;> cases e <;> cases st <;> cases so <;>
      cases f <;> simp [readinessScore]
  · intro r hr
    simp only [readinessScore] at hr
    split at hr
    · cases hr
    · rename_i hk
      have hmemb : ∀ x ∈ ([s, m, e, st.map (fun v => 11 - v),
          so.map (fun v => 11 - v), f.map (fun v => 11 - v)] :
            List (Option Rat)).filterMap id, 1 ≤ x ∧ x ≤ 10 := by
        intro x hx
        rw [List.mem_filterMap] at hx
        rcases hx with ⟨a, ha, hax⟩
        have hax2 : a = some x := hax
        subst hax2
        simp only [List.mem_cons, List.not_mem_nil, or_false] at ha
        rcases ha with h1 | h1 | h1 | h1 | h1 | h1
        · exact hb x (Or.inl h1.symm)
        · exact hb x (Or.inr (Or.inl h1.symm))
        · exact hb x (Or.inr (Or.inr (Or.inl h1.symm)))
        · rcases Option.map_eq_some'.mp h1.symm with ⟨v, hv, hvx⟩
          have := hb v (Or.inr (Or.inr (Or.inr (Or.inl hv))))
          constructor <;> [skip; skip] <;> rw [← hvx] <;> [linarith; linarith]
        · rcases Option.map_eq_some'.mp h1.symm with ⟨v, hv, hvx⟩
          have := hb v (Or.inr (Or.inr (Or.inr (Or.inr (Or.inl hv)))))
          constructor <;> [skip; skip] <;> rw [← hvx] <;> [linarith; linarith]
        · rcases Option.map_eq_some'.mp h1.symm with ⟨v, hv, hvx⟩
          have := hb v (Or.inr (Or.inr (Or.inr (Or.inr (Or.inr hv)))))
          constructor <;> [skip; skip] <;> rw [← hvx] <;> [linarith; linarith]
      have hbounds := sum_div_length_bounds (by assumption) hmemb
      rcases Option.some.injEq _ _ ▸ hr with hr2
      have hr3 := Option.some.inj hr
      rw [← hr3]
      exact hbounds

/-- C6 witness. -/
theorem C6_readiness_witness :
    (readinessScore (some 5) none none none none (some 8) = none ↔
      (some 5 : Option Rat) = none ∧ (none : Option Rat) = none ∧
      (none : Option Rat) = none ∧ (none : Option Rat) = none ∧
      (none : Option Rat) = none ∧ (some 8 : Option Rat) = none) ∧
    ∀ r : Rat, readinessScore (some 5) none none none none (some 8) =
      some r → 1 ≤ r ∧ r ≤ 10 :=
  C6_readiness (some 5) none none none none (some 8) (by
    intro v hv
    rcases hv with h | h | h | h | h | h <;> simp_all <;> norm_num [← h])

/-- C7: the z-score guards against division by zero: fewer than two
historical points yield unknown, and a constant historical series (zero
sample variance, hence zero standard deviation) yields unknown, for any
square-root function. -/
theorem C7_zscore (rt : Rat → Rat) (hist : List Rat) (value : Rat) :
    (hist.length < 2 → zscoreVal rt hist value = none) ∧
    ∀ c : Rat, (∀ x ∈ hist, x = c) → zscoreVal rt hist value = none := by
  constructor
  · intro h
    unfold zscoreVal
    rw [if_pos h]
  · intro c hc
    by_cases hlen : hist.length < 2
    · unfold zscoreVal
      rw [if_pos hlen]
    · have hlenQ : (0 : Rat) < (hist.length : Rat) := by
        have h2 : 2 ≤ hist.length := by omega
        have : (2 : Rat) ≤ (hist.length : Rat) := by exact_mod_cast h2
        linarith
      have hsum : hist.sum = (hist.length : Rat) * c := by
        have := List.sum_eq_card_nsmul hist c hc
        rwa [nsmul_eq_mul] at this
      have hm : hist.sum / (hist.length : Rat) = c := by
        rw [hsum]
        field_simp
      have hdev : (hist.map
          (fun x => (x - hist.sum / (hist.length : Rat)) ^ 2)).sum = 0 := by
        have hz : ∀ y ∈ hist.map
            (fun x => (x - hist.sum / (hist.length : Rat)) ^ 2), y = 0 := by
          intro y hy
          rcases List.mem_map.mp hy with ⟨x, hx, hxy⟩
          rw [← hxy, hm, hc x hx]
          ring
        have := List.sum_eq_card_nsmul _ (0 : Rat) hz
        rwa [smul_zero] at this
      simp only [zscoreVal]
      rw [if_neg hlen]
      rw [hdev]
      simp

/-- C7 witness. -/
theorem C7_zscore_witness :
    (([4, 4, 4] : List Rat).length < 2 →
      zscoreVal id [4, 4, 4] 7 = none) ∧
    ∀ c : Rat, (∀ x ∈ ([4, 4, 4] : List Rat), x = c) →
      zscoreVal id [4, 4, 4] 7 = none :=
  C7_zscore id [4, 4, 4] 7

theorem getD_of_le {α : Type} {l : List α} {n : Nat} (h : l.length ≤ n)
    (d : α) : l.getD n d = d := by
  simp [List.getD_eq_getElem?_getD, List.getElem?_eq_none h]

theorem uniqueFirst_mem (x : Cell) (l : List Cell) :
    x ∈ uniqueFirst l ↔ x ∈ l := by
  have H : ∀ n (l2 : List Cell), l2.length = n →
      (x ∈ uniqueFirst l2 ↔ x ∈ l2) := by
    intro n
    induction n using Nat.strong_induction_on with
    | _ n ih =>
      intro l2 hl2
      cases l2 with
      | nil => simp [uniqueFirst]
      | cons c rest =>
        rw [uniqueFirst]
        have hlen : (rest.filter (fun y => y ≠ c)).length < n := by
          have h1 : (rest.filter (fun y => y ≠ c)).length ≤ rest.length :=
            List.length_filter_le _ _
          simp only [List.length_cons] at hl2
          omega
        have ihf := ih _ hlen (rest.filter (fun y => y ≠ c)) rfl
        constructor
        · intro hx
          rcases List.mem_cons.mp hx with h1 | h1
          · exact h1 ▸ List.mem_cons_self c rest
          · have h2 := ihf.mp h1
            exact List.mem_cons_of_mem c (List.mem_filter.mp h2).1
        · intro hx
          rcases List.mem_cons.mp hx with h1 | h1
          · exact h1 ▸ List.mem_cons_self c _
          · by_cases hxc : x = c
            · exact hxc ▸ List.mem_cons_self c _
            · exact List.mem_cons_of_mem c (ihf.mpr
                (List.mem_filter.mpr ⟨h1, by simp [hxc]⟩))
  exact H l.length l rfl

theorem uniqueFirst_nodup (l : List Cell) : (uniqueFirst l).Nodup := by
  have H : ∀ n (l2 : List Cell), l2.length = n →
      (uniqueFirst l2).Nodup := by
    intro n
    induction n using Nat.strong_induction_on with
    | _ n ih =>
      intro l2 hl2
      cases l2 with
      | nil => simp [uniqueFirst]
      | cons c rest =>
        rw [uniqueFirst]
        have hlen : (rest.filter (fun y => y ≠ c)).length < n := by
          have h1 : (rest.filter (fun y => y ≠ c)).length ≤ rest.length :=
            List.length_filter_le _ _
          simp only [List.length_cons] at hl2
          omega
        rw [List.nodup_cons]
        refine ⟨?_, ih _ hlen (rest.filter (fun y => y ≠ c)) rfl⟩
        intro hmem
        have h2 := (uniqueFirst_mem c _).mp hmem
        have h3 := (List.mem_filter.mp h2).2
        simp at h3
  exact H l.length l rfl

/-- C10: on a table whose subject column is well typed (strings or missing,
not duplicated), `get_athletes` returns the ascending, duplicate-free list
of exactly the non-missing subject values, and on a table without an
`Athlete` column it returns the empty list rather than raising. -/
theorem C10_get_athletes (df : Df)
    (hcount : df.cols.count "Athlete" ≤ 1)
    (hstr : ∀ r ∈ df.rows,
      strOrNull (r.getD (idxOfLbl df.cols "Athlete") Cell.null) = true)
    (hwf : wfRows df) :
    (∃ l, get_athletes df = .ok l ∧
      List.Pairwise (fun a b => cellLe a b = true) l ∧
      l.Nodup ∧
      (∀ c, c ∈ l ↔ (isNullCell c = false ∧
        c ∈ df.rows.map
          (fun r => r.getD (idxOfLbl df.cols "Athlete") Cell.null)))) ∧
    ("Athlete" ∉ df.cols → get_athletes df = .ok []) := by
  constructor
  · by_cases hmem : "Athlete" ∈ df.cols
    · have hvalstr : ∀ x ∈ (df.rows.map
          (fun r => r.getD (idxOfLbl df.cols "Athlete") Cell.null)).filter
            (fun c => !isNullCell c),
          cellRank x = 3 := by
        intro x hx
        have hx2 := List.mem_filter.mp hx
        rcases List.mem_map.mp hx2.1 with ⟨r, hr, hrx⟩
        have hsn : strOrNull x = true := hrx ▸ hstr r hr
        have hnn : isNullCell x = false := by
          have := hx2.2
          simpa using this
        cases x <;> simp_all [strOrNull, isNullCell, cellRank]
      have hsortable : sortableCells (uniqueFirst
          ((df.rows.map
            (fun r => r.getD (idxOfLbl df.cols "Athlete") Cell.null)).filter
              (fun c => !isNullCell c))) = true := by
        have hall : (uniqueFirst
            ((df.rows.map
              (fun r => r.getD (idxOfLbl df.cols "Athlete")
                Cell.null)).filter (fun c => !isNullCell c))).all
            (fun c => cellRank c = 3) = true := by
          rw [List.all_eq_true]
          intro x hx
          have hx2 := (uniqueFirst_mem x _).mp hx
          simp only [decide_eq_true_eq]
          exact hvalstr x hx2
        unfold sortableCells
        rw [hall]
        simp
      have hnc : ¬(1 < df.cols.count "Athlete") := by omega
      refine ⟨(uniqueFirst
        ((df.rows.map
          (fun r => r.getD (idxOfLbl df.cols "Athlete") Cell.null)).filter
            (fun c => !isNullCell c))).mergeSort cellLe, ?_, ?_, ?_, ?_⟩
      · simp only [get_athletes]
        rw [if_pos hmem, if_neg hnc, if_pos hsortable]
      · exact @List.sorted_mergeSort Cell cellLe
          (fun a b c h1 h2 => cellLe_trans h1 h2)
          (fun a b => cellLe_total a b) _
      · exact (List.mergeSort_perm _ cellLe).nodup_iff.mpr
          (uniqueFirst_nodup _)
      · intro c
        rw [List.mem_mergeSort, uniqueFirst_mem, List.mem_filter]
        constructor
        · rintro ⟨h1, h2⟩
          refine ⟨?_, h1⟩
          simpa using h2
        · rintro ⟨h1, h2⟩
          refine ⟨h2, ?_⟩
          simpa using h1
    · have hidx : idxOfLbl df.cols "Athlete" = df.cols.length := by
        apply List.findIdx_eq_length_of_false
        intro x hx
        simp only [decide_eq_false_iff_not]
        intro hEq
        exact hmem (hEq ▸ hx)
      refine ⟨[], ?_, List.Pairwise.nil, List.nodup_nil, ?_⟩
      · simp only [get_athletes]
        rw [if_neg hmem]
      · intro c
        simp only [List.not_mem_nil, false_iff]
        rintro ⟨h1, h2⟩
        rcases List.mem_map.mp h2 with ⟨r, hr, hrc⟩
        have hnull : r.getD (idxOfLbl df.cols "Athlete") Cell.null =
            Cell.null := by
          apply getD_of_le
          rw [hwf r hr, hidx]
        rw [hnull] at hrc
        rw [← hrc] at h1
        simp [isNullCell] at h1
  · intro hnot
    simp only [get_athletes]
    rw [if_neg hnot]

/-- C10 witness. -/
theorem C10_get_athletes_witness :
    (∃ l, get_athletes ⟨["Athlete"],
        [[Cell.str "B"], [Cell.null], [Cell.str "A"], [Cell.str "B"]]⟩ =
        .ok l ∧
      List.Pairwise (fun a b => cellLe a b = true) l ∧
      l.Nodup ∧
      (∀ c, c ∈ l ↔ (isNullCell c = false ∧
        c ∈ ([[Cell.str "B"], [Cell.null], [Cell.str "A"],
          [Cell.str "B"]] : List (List Cell)).map
          (fun r => r.getD (idxOfLbl ["Athlete"] "Athlete")
            Cell.null)))) ∧
    ("Athlete" ∉ (["Athlete"] : List String) →
      get_athletes ⟨["Athlete"],
        [[Cell.str "B"], [Cell.null], [Cell.str "A"], [Cell.str "B"]]⟩ =
        .ok []) :=
  C10_get_athletes ⟨["Athlete"],
    [[Cell.str "B"], [Cell.null], [Cell.str "A"], [Cell.str "B"]]⟩
    (by decide) (by decide) (by decide)

end Wellness
